/-
Verification of the ADPKD segmentation data pipeline
(adpkd_segmentation/datasets/datasets.py and
notebooks/evaluate_patients_notebook.py).

Volumes are embedded as functions over finite index types
(`Fin slices → Fin H → Fin W → ℚ`), mirroring numpy arrays of shape
`slices × 1 × H × W` with the singleton channel axis squeezed away.
Machine floats are modelled by exact rationals.
-/
import Mathlib

namespace ADPKD

/-- A 3D study volume: `slices × H × W` of rational voxel values.
Mirrors the numpy arrays of shape `slices × 1 × H × W` (channel axis
of size 1 squeezed away) handled by `evaluate_patients_notebook.py`. -/
abbrev Vol (s h w : ℕ) : Type := Fin s → Fin h → Fin w → ℚ

/-- Sum of all voxel values of a volume; embeds `torch.sum`/`np.sum`
over every axis (the stats engine always reduces over `dim=(0,1,2,3)`). -/
def volSum {s h w : ℕ} (v : Vol s h w) : ℚ :=
  ∑ i : Fin s, ∑ j : Fin h, ∑ k : Fin w, v i j k

/-- Modelled from the spec: `SigmoidBinarize(thresholds=[0.5])` from
`adpkd_segmentation/utils/losses.py` (that module is not part of the
sources here, only its caller is).  The spec describes it as
binarization via a fixed-threshold sigmoid rule with threshold 0.5;
since the sigmoid is strictly monotone with `sigmoid 0 = 1/2`, a voxel
is mapped to 1 exactly when its raw value is positive. -/
def sigmoidBinarize (x : ℚ) : ℚ :=
  if 0 < x then 1 else 0

/-- Modelled from the spec: the `Dice` criterion of
`adpkd_segmentation/utils/losses.py` (not part of the sources here) as
instantiated by the stats engine: `Dice(pred_process=pred_process,
use_as_loss=False, power=1, dim=(0,1,2,3))`, i.e.
`Dice = (2·|P∩G| + ε)/(|P| + |G| + ε)` between the binarized prediction
volume and the ground-truth volume, with elementwise products/sums taken
over all voxel positions jointly and a smoothing constant `ε`. -/
def diceMetric {s h w : ℕ} (ε : ℚ) (pp : ℚ → ℚ) (pred ground : Vol s h w) : ℚ :=
  (2 * volSum (fun i j k => pp (pred i j k) * ground i j k) + ε) /
    (volSum (fun i j k => pp (pred i j k)) + volSum ground + ε)

/-- The attributes dictionary of one slice / one study summary.
`dim0` is `attrib_dict["dim"][0]` (original row count),
`transform_resize_dim0` is `attrib_dict["transform_resize_dim"][0]`
(resize-target dimension recorded by `inference_to_disk`), `vox_vol` is
`attrib_dict["vox_vol"]`.  The remaining keys written by
`exam_preds_to_stat` start out absent (`none`).  `extra` stands for all
other keys carried by the JSON sidecar, which the stats engine never
touches. -/
structure AttribDict where
  dim0 : ℕ
  transform_resize_dim0 : ℕ
  vox_vol : ℚ
  patient : String
  MR : String
  TKV_GT : Option ℚ
  TKV_Pred : Option ℚ
  patient_dice : Option ℚ
  study : Option String
  scale_factor : Option ℚ
  Pred_stdev : Option ℚ
  extra : List (String × ℚ)
  deriving DecidableEq, Repr, Inhabited

/-- Embeds `exam_preds_to_stat` of `evaluate_patients_notebook.py`
(lines 298-346): computes the Dice value, the scale factor
`dim[0]² / transform_resize_dim[0]²`, the binarized pixel counts and the
two TKV values, and updates the attribute dictionary with the keys
`TKV_GT`, `TKV_Pred`, `patient_dice`, `study`, `scale_factor`,
`Pred_stdev`.  `pp` is the `pred_process` argument and `ε` the smoothing
constant of the spec-modelled Dice. -/
def examPredsToStat {s h w : ℕ} (ε : ℚ) (pp : ℚ → ℚ)
    (pred_vol ground_vol : Vol s h w) (attrib_dict : AttribDict)
    (pred_std : Option ℚ) : AttribDict :=
  let dice_val := diceMetric ε pp pred_vol ground_vol
  let scaleFactor : ℚ :=
    ((attrib_dict.dim0 : ℚ) ^ 2) / ((attrib_dict.transform_resize_dim0 : ℚ) ^ 2)
  let pred_pixel_count := volSum (fun i j k => pp (pred_vol i j k))
  let volume_pred := scaleFactor * attrib_dict.vox_vol * pred_pixel_count
  let ground_pixel_count := volSum (fun i j k => pp (ground_vol i j k))
  let volume_ground := scaleFactor * attrib_dict.vox_vol * ground_pixel_count
  { attrib_dict with
      TKV_GT := some volume_ground
      TKV_Pred := some volume_pred
      patient_dice := some dice_val
      study := some (attrib_dict.patient ++ attrib_dict.MR)
      scale_factor := some scaleFactor
      Pred_stdev := pred_std }

/-- Number of positive voxels of a volume, i.e. the number of ones in
its `sigmoidBinarize` image. -/
def posCount {s h w : ℕ} (v : Vol s h w) : ℕ :=
  (Finset.univ.filter fun x : Fin s × Fin h × Fin w => 0 < v x.1 x.2.1 x.2.2).card

/-! ### Ensemble combination (`resized_stack` and the combined phase of
`compute_inference_stats`) -/

/-- The `reshape` helper inside `resized_stack`
(`np.moveaxis(arr, 0, -1)` followed by `np.squeeze`): a
`slices × 1 × H × W` array becomes `H × W × slices`.  On function
volumes this is pure index shuffling. -/
def reshapeHWS {s h w : ℕ} (v : Vol s h w) : Fin h → Fin w → Fin s → ℚ :=
  fun i j k => v k i j

/-- The inverse shuffle applied by the combined phase of
`compute_inference_stats` (`np.moveaxis(pred_vol, -1, 0)` followed by
`np.expand_dims(pred_vol, axis=1)`): back from `H × W × slices` to
`slices × 1 × H × W`. -/
def backToSHW {s h w : ℕ} (u : Fin h → Fin w → Fin s → ℚ) : Vol s h w :=
  fun k i j => u i j k

/-- Embeds `resized_stack(numpy_list)` (lines 205-237) for stacks that
already share the reference shape: every stack is reshaped to
`H × W × slices`, then resized with `cv2.resize` to `dsize`, the `H × W`
of the stack at index 0.  `cv2.resize` is an external collaborator
(opaque per the spec); resizing an image to its own size is the identity
map, which is the only case arising here because all stacks have the
shape of the first one (enforced by the index types). -/
def resizedStack {s h w : ℕ} (numpy_list : List (Vol s h w)) :
    List (Fin h → Fin w → Fin s → ℚ) :=
  numpy_list.map reshapeHWS

/-- All voxel values of an `H × W × slices` array, in C order; embeds
the implicit flattening performed by `np.std` with no `axis` argument. -/
def volEntriesHWS {s h w : ℕ} (u : Fin h → Fin w → Fin s → ℚ) : List ℚ :=
  (List.finRange h).flatMap fun i =>
    (List.finRange w).flatMap fun j =>
      (List.finRange s).map fun k => u i j k

/-- Mean of a list of rationals (`np.mean` over a flattened array);
division by zero yields 0 for the empty list, which never arises in the
claims. -/
def npMean (xs : List ℚ) : ℚ := xs.sum / (xs.length : ℚ)

/-- Population variance of a list of rationals, `mean ((x - mean xs)²)`. -/
def npVar (xs : List ℚ) : ℚ :=
  (xs.map fun x => (x - npMean xs) ^ 2).sum / (xs.length : ℚ)

/-- Embeds `np.std` over a flattened array: the square root of the
population variance.  The rational square root `Rat.sqrt` stands in for
the real square root of the floating-point code; the two agree on the
values at stake in the claims (`0` and perfect squares). -/
def npStd (xs : List ℚ) : ℚ := Rat.sqrt (npVar xs)

/-- Embeds the element-wise `np.mean(all_pred_vol[key], axis=0)` over a
stacked list of `H × W × slices` arrays. -/
def meanAxis0 {s h w : ℕ} (stack : List (Fin h → Fin w → Fin s → ℚ)) :
    Fin h → Fin w → Fin s → ℚ :=
  fun i j k => (stack.map fun u => u i j k).sum / (stack.length : ℚ)

/-- Embeds the combined-ensemble phase of `compute_inference_stats`
(lines 413-433) for one study key: the accumulated prediction stacks are
passed through `resized_stack`, averaged element-wise over the model
axis, the scalar `np.std` of the whole resized stack is taken, the
average is shuffled back to `slices × 1 × H × W`, and
`exam_preds_to_stat` is called with the ground volume and summary of the
model at index 0. -/
def combinedSummary {s h w : ℕ} (ε : ℚ) (pp : ℚ → ℚ)
    (all_pred_vol : List (Vol s h w)) (all_ground_vol : List (Vol s h w))
    (all_summaries : List AttribDict) : AttribDict :=
  let stack := resizedStack all_pred_vol
  let pred_vol := backToSHW (meanAxis0 stack)
  let pred_std := npStd ((stack.map volEntriesHWS).flatten)
  let ground_vol := all_ground_vol.headI
  examPredsToStat ε pp pred_vol ground_vol all_summaries.headI (some pred_std)

/-! ### Dictionary identity (`attrib_dict.update` mutates in place) -/

/-- A heap of attribute dictionaries: Python dict objects are mutable
and shared, so summaries are addressed by position in a store.
`Metric_data`, `all_summaries` and the return value of
`exam_preds_to_stat` hold addresses into this store. -/
abbrev Store : Type := List AttribDict

/-- Embeds the reference-level behaviour of `exam_preds_to_stat`: the
function calls `attrib_dict.update({...})` on its argument and then
returns that same object, so the store cell at the argument's address is
overwritten with the enriched dictionary and the address itself is
returned unchanged. -/
def examPredsToStatRef {s h w : ℕ} (ε : ℚ) (pp : ℚ → ℚ)
    (pred_vol ground_vol : Vol s h w) (σ : Store) (a : ℕ)
    (pred_std : Option ℚ) : Store × ℕ :=
  (σ.set a (examPredsToStat ε pp pred_vol ground_vol (σ.getD a default) pred_std), a)

/-! ### `InferenceDataset` slice ordering (datasets.py, lines 284-382) -/

/-- One row of the dataframe built in `InferenceDataset.__init__`: the
per-file DICOM metadata extracted at lines 314-342.  `z_pos` is the
third coordinate of `ImagePositionPatient`, absent (`none`) when the
file carries no usable position. -/
structure InfRecord where
  dcm_path : List Char
  folder : String
  series_description : String
  patient_id : String
  x_dim : ℕ
  y_dim : ℕ
  acc_num : String
  ser_num : ℤ
  z_pos : Option ℚ
  deriving DecidableEq, Repr

/-- The exact-match group key of `dataset.groupby(group_keys)`:
`(folders, studies, patients, x_dims, y_dims, acc_nums, ser_nums)`. -/
structure GroupKey where
  folders : String
  studies : String
  patients : String
  x_dims : ℕ
  y_dims : ℕ
  acc_nums : String
  ser_nums : ℤ
  deriving DecidableEq, Repr

/-- The group key of one dataframe row. -/
def groupKeyOf (r : InfRecord) : GroupKey :=
  ⟨r.folder, r.series_description, r.patient_id, r.x_dim, r.y_dim, r.acc_num, r.ser_num⟩

/-- The rows of `r`'s group, in dataframe order (pandas `groupby`
preserves the original row order inside each group). -/
def groupRows (rows : List InfRecord) (r : InfRecord) : List InfRecord :=
  rows.filter fun q => groupKeyOf q = groupKeyOf r

/-- Embeds the `slice_map` dictionary: `np.argsort(zs)` composed with
indexing into `zs` enumerates the sorted values, so
`{zs[idx]: pos for idx, pos in zip(sorted_idxs, range(len(zs)))}` maps
each value to its position in the sorted list, later (larger) positions
overwriting earlier ones for duplicated values.  Looking the reversed
association list up reproduces the last-write-wins dict semantics.  The
model sorts with `List.insertionSort`; `np.argsort` agrees with any
correct sort on the value-to-position map. -/
def sliceMap {K : Type} [LinearOrder K] (zs : List K) (v : K) : Option ℕ :=
  (((zs.insertionSort (· ≤ ·)).zip (List.range zs.length)).reverse).lookup v

/-- The `slice_pos` rank assigned to row `r` by the first groupby loop
(lines 359-375): within `r`'s group the sort key is `z_pos`, falling
back to `dcm_paths` when any member of the group has a missing
`z_pos` (`group[sort_key].isna().any()`); the row's own key value is
then sent through `slice_map`. -/
def recordSlicePos (rows : List InfRecord) (r : InfRecord) : Option ℕ :=
  let group := groupRows rows r
  if group.any fun q => q.z_pos.isNone then
    sliceMap (group.map fun q => q.dcm_path) r.dcm_path
  else
    sliceMap (group.map fun q => q.z_pos.getD 0) (r.z_pos.getD 0)

/-- The per-group copies sorted by the second groupby loop (lines
377-379): pandas `groupby` iteration yields fresh copies, and
`group.sort_values(by="slice_pos", inplace=True)` sorts each copy.
These copies are discarded; nothing writes back into `dataset`. -/
def inferenceSortedGroupCopies (rows : List InfRecord) : List (List InfRecord) :=
  ((rows.map groupKeyOf).dedup).map fun key =>
    (rows.filter fun q => groupKeyOf q = key).insertionSort
      (fun q q' => (recordSlicePos rows q).getD 0 ≤ (recordSlicePos rows q').getD 0)

/-- The file-path list exposed after construction
(`self.dcm_paths = list(dataset["dcm_paths"])`, line 382): the
`slice_pos` assignments mutate a column in place but never reorder the
dataframe, and the sorted group copies of the second loop are dropped,
so the exposed list is the dataframe's construction order. -/
def inferenceDcmPaths (rows : List InfRecord) : List (List Char) :=
  rows.map fun r => r.dcm_path

/-! ### `JsonDatasetGetter` (datasets.py, lines 226-268) -/

/-- Python exceptions raised by the embedded code paths, plus the
`ConfigurationError` class named by the spec's error taxonomy (no such
class exists anywhere in the sources; it is the spec's name for the
missing-split-key failure). -/
inductive PyExc where
  | keyError (key : String)
  | valueError
  | indexError (idx : ℕ)
  | configurationError (msg : String)
  deriving DecidableEq, Repr

deriving instance DecidableEq for Except

/-- Recognizes the spec-taxonomy `ConfigurationError` outcome. -/
def isConfigurationError {α : Type} : Except PyExc α → Bool
  | Except.error (PyExc.configurationError _) => true
  | _ => false

/-- Embeds the split lookup of `JsonDatasetGetter.__init__`
(lines 257-260): the loaded JSON object is a mapping of split names to
patient-ID lists and `dataset_split[splitter_key]` either yields the
list or raises the builtin `KeyError` for a missing key. -/
def jsonDatasetGetterPatientIDs (dataset_split : List (String × List String))
    (splitter_key : String) : Except PyExc (List String) :=
  match dataset_split.lookup splitter_key with
  | some ids => Except.ok ids
  | none => Except.error (PyExc.keyError splitter_key)

/-! ### Per-study aggregation loop of `compute_inference_stats`
(lines 376-406) -/

/-- The persisted artifacts found in one study directory: per-slice
image, prediction and ground-truth arrays (each `1 × H × W` with the
channel squeezed) and the attribute sidecars, each list in
sorted-filename order. -/
structure StudyArtifacts (h w : ℕ) where
  imgs : List (Fin h → Fin w → ℚ)
  preds : List (Fin h → Fin w → ℚ)
  grounds : List (Fin h → Fin w → ℚ)
  attribs : List AttribDict

/-- `np.stack` of a list of `H × W` slices into a `slices × H × W`
volume (the caller checks non-emptiness separately, since
`np.stack([])` raises `ValueError`). -/
def stackSlices {h w : ℕ} (slices : List (Fin h → Fin w → ℚ)) :
    Vol slices.length h w :=
  fun i j k => (slices.get i) j k

/-- Embeds the body of the per-study loop of `compute_inference_stats`:
`np.stack` on an empty artifact list raises
`ValueError` (there is no skip-and-warn path), a prediction/ground
shape mismatch would fail to broadcast inside the Dice computation
(also a `ValueError`), and `attribs_dicts[0]` on an empty sidecar list
raises `IndexError(0)`; otherwise the study summary is produced by
`exam_preds_to_stat` with the attribute dict of slice 0. -/
def processStudy {h w : ℕ} (ε : ℚ) (pp : ℚ → ℚ) (sd : StudyArtifacts h w) :
    Except PyExc AttribDict :=
  if sd.imgs.isEmpty ∨ sd.preds.isEmpty ∨ sd.grounds.isEmpty then
    Except.error PyExc.valueError
  else if hlen : sd.grounds.length = sd.preds.length then
    match sd.attribs with
    | [] => Except.error (PyExc.indexError 0)
    | d :: _ =>
        Except.ok (examPredsToStat ε pp (stackSlices sd.preds)
          (hlen ▸ stackSlices sd.grounds) d none)
  else
    Except.error PyExc.valueError

/-- The study loop itself: each study of one model directory is
processed in turn and an uncaught exception propagates, aborting the
whole run and losing the remaining studies. -/
def processStudies {h w : ℕ} (ε : ℚ) (pp : ℚ → ℚ) :
    List (StudyArtifacts h w) → Except PyExc (List AttribDict)
  | [] => Except.ok []
  | sd :: rest => do
      let s ← processStudy ε pp sd
      let r ← processStudies ε pp rest
      Except.ok (s :: r)

/-! ### Python slice indexing (`__getitem__` of both datasets,
datasets.py lines 79-82 and 384-387) -/

/-- Python list indexing `l[i]`: a negative index counts from the end;
an index outside `[-len l, len l)` raises `IndexError` (`none`). -/
def pyListGet {α : Type} (l : List α) (i : ℤ) : Option α :=
  let j := if i < 0 then i + (l.length : ℤ) else i
  if 0 ≤ j then l[j.toNat]? else none

/-- The bound normalization of CPython's `slice.indices(length)`: a
negative value counts from the end, and the result is clamped into
`[lower, upper]`. -/
def clampIndex (length : ℕ) (lower upper v : ℤ) : ℤ :=
  let v' := if v < 0 then v + (length : ℤ) else v
  if v' < lower then lower else if upper < v' then upper else v'

/-- CPython's `slice.indices(length)`: resolves the optional
`start`/`stop`/`step` of a slice against a sequence length, clamping
both bounds into valid range (`step = 0` raises `ValueError` before this
point and is handled by the caller). -/
def sliceIndices (length : ℕ) (start stop step : Option ℤ) : ℤ × ℤ × ℤ :=
  let st := step.getD 1
  let lower : ℤ := if 0 < st then 0 else -1
  let upper : ℤ := if 0 < st then (length : ℤ) else (length : ℤ) - 1
  (match start with
    | none => if 0 < st then lower else upper
    | some v => clampIndex length lower upper v,
   match stop with
     | none => if 0 < st then upper else lower
     | some v => clampIndex length lower upper v,
   st)

/-- Python's `range(start, stop, step)` as a list (`step ≠ 0`; the
`step = 0` case raises `ValueError` in Python and never reaches this
function, because `slice.indices` raises first). -/
def pythonRange (start stop step : ℤ) : List ℤ :=
  if 0 < step then
    (List.range (((stop - start).toNat + (step.toNat - 1)) / step.toNat)).map
      fun i : ℕ => start + step * (i : ℤ)
  else if step < 0 then
    (List.range (((start - stop).toNat + ((-step).toNat - 1)) / (-step).toNat)).map
      fun i : ℕ => start + step * (i : ℤ)
  else []

/-- The slice branch shared verbatim by `SegmentationDataset.__getitem__`
and `InferenceDataset.__getitem__`:
`[self[ii] for ii in range(*index.indices(len(self)))]`.  `build`
abstracts the per-index sample construction performed on
`self.dcm_paths[index]` (DICOM decode, normalization, augmentation and
channel stacking are external collaborators); each generated index is
looked up with Python list semantics. -/
def datasetGetitemSlice {α : Type} (dcm_paths : List String) (build : String → α)
    (start stop step : Option ℤ) : Except PyExc (List α) :=
  if step = some 0 then Except.error PyExc.valueError
  else
    let r := sliceIndices dcm_paths.length start stop step
    (pythonRange r.1 r.2.1 r.2.2).mapM fun i =>
      match pyListGet dcm_paths i with
      | some p => Except.ok (build p)
      | none => Except.error (PyExc.indexError i.toNat)

/-- `SegmentationDataset.__getitem__` on a slice argument (lines 81-82). -/
def segmentationGetitemSlice {α : Type} (dcm_paths : List String)
    (build : String → α) (start stop step : Option ℤ) : Except PyExc (List α) :=
  datasetGetitemSlice dcm_paths build start stop step

/-- `InferenceDataset.__getitem__` on a slice argument (lines 386-387). -/
def inferenceGetitemSlice {α : Type} (dcm_paths : List String)
    (build : String → α) (start stop step : Option ℤ) : Except PyExc (List α) :=
  datasetGetitemSlice dcm_paths build start stop step

/-! ### Concrete instances used by the claim theorems below -/

def c3P : Vol 1 1 1 := fun _ _ _ => 1

def c3G : Vol 1 1 1 := fun _ _ _ => 0

def c3D : AttribDict :=
  ⟨2, 2, 5, "pat", "MR1", none, none, none, none, none, none, []⟩

def c5P : Vol 1 1 1 := fun _ _ _ => 1

def c5D : AttribDict :=
  ⟨3, 3, 2, "pat", "MR2", none, none, none, none, none, none, []⟩

/-! C8 concrete studies -/

def c8Slice : Fin 1 → Fin 1 → ℚ := fun _ _ => 1

def c8D : AttribDict :=
  ⟨2, 2, 1, "pat", "MR3", none, none, none, none, none, none, []⟩

def c8Empty : StudyArtifacts 1 1 := ⟨[], [], [], []⟩

def c8Good : StudyArtifacts 1 1 := ⟨[c8Slice], [c8Slice], [c8Slice], [c8D]⟩

def c8NoAttrib : StudyArtifacts 1 1 := ⟨[c8Slice], [c8Slice], [c8Slice], []⟩

def c9D : AttribDict :=
  ⟨4, 2, 1, "pat", "MR4", none, none, none, none, none, none, []⟩

/-! C1 concrete rows: one group with two slices whose z-positions are
out of order relative to the construction order. -/

def c1Row0 : InfRecord := ⟨"a".data, "f", "s", "p", 2, 2, "acc", 1, some 5⟩

def c1Row1 : InfRecord := ⟨"b".data, "f", "s", "p", 2, 2, "acc", 1, some 3⟩

/-! C6 counterexample data: two models predict the identical
non-constant volume (voxel values 2, 0, 0, 2 in one 2×2 slice). -/

def c6P : Vol 1 2 2 := fun _ i j => if i = j then 2 else 0

def c6G : Vol 1 2 2 := fun _ _ _ => 0

def c6D : AttribDict :=
  ⟨4, 2, 3, "pat", "MR6", none, none, none, none, none, none, []⟩

def c6S1 : AttribDict := examPredsToStat 1 sigmoidBinarize c6P c6G c6D none

/-! C2 witness rows: one group with unique out-of-order z-positions, and
one group with a missing z-position. -/

def c2w0 : InfRecord := ⟨"wa".data, "g", "t", "q", 3, 3, "acc2", 2, some 7⟩

def c2w1 : InfRecord := ⟨"wb".data, "g", "t", "q", 3, 3, "acc2", 2, some 4⟩

def c2m0 : InfRecord := ⟨"ma".data, "g", "t", "q", 3, 3, "acc2", 2, none⟩

def c2m1 : InfRecord := ⟨"mb".data, "g", "t", "q", 3, 3, "acc2", 2, some 4⟩

/-! ## Helper lemmas -/

theorem volSum_eq_sum_univ {s h w : ℕ} (v : Vol s h w) :
    volSum v = ∑ x : Fin s × Fin h × Fin w, v x.1 x.2.1 x.2.2 := by
  simp [volSum, Fintype.sum_prod_type]

theorem volSum_binarize {s h w : ℕ} (v : Vol s h w) :
    volSum (fun i j k => sigmoidBinarize (v i j k)) = (posCount v : ℚ) := by
  rw [volSum_eq_sum_univ]
  simp [sigmoidBinarize, posCount, Finset.sum_boole]

theorem volSum_nonneg {s h w : ℕ} {v : Vol s h w}
    (hv : ∀ i j k, 0 ≤ v i j k) : 0 ≤ volSum v := by
  rw [volSum_eq_sum_univ]
  exact Finset.sum_nonneg fun x _ => hv x.1 x.2.1 x.2.2

theorem volSum_pos {s h w : ℕ} {v : Vol s h w}
    (hv : ∀ i j k, 0 ≤ v i j k) (i : Fin s) (j : Fin h) (k : Fin w)
    (hp : 0 < v i j k) : 0 < volSum v := by
  rw [volSum_eq_sum_univ]
  exact Finset.sum_pos' (fun x _ => hv x.1 x.2.1 x.2.2)
    ⟨(i, j, k), Finset.mem_univ _, hp⟩

/-- A 0/1-valued volume is a fixed point of `sigmoidBinarize`. -/
theorem binarize_of_01 {s h w : ℕ} {v : Vol s h w}
    (hv : ∀ i j k, v i j k = 0 ∨ v i j k = 1) (i : Fin s) (j : Fin h) (k : Fin w) :
    sigmoidBinarize (v i j k) = v i j k := by
  rcases hv i j k with h | h <;> simp [sigmoidBinarize, h]

/-! ## Claims -/

/-- C3: for every study, `exam_preds_to_stat` reports
`TKV_Pred` and `TKV_GT` equal to scale factor × voxel volume × the
count of positive voxels of the binarized prediction (resp. ground
truth) volume, and whenever the scale factor is 1 this collapses to the
raw binarized pixel count times the voxel volume. -/
theorem tkv_eq_scale_mul_voxvol_mul_count {s h w : ℕ} (ε : ℚ)
    (P G : Vol s h w) (d : AttribDict) (ps : Option ℚ) :
    (examPredsToStat ε sigmoidBinarize P G d ps).TKV_Pred
        = some ((d.dim0 : ℚ) ^ 2 / (d.transform_resize_dim0 : ℚ) ^ 2
            * d.vox_vol * (posCount P : ℚ))
    ∧ (examPredsToStat ε sigmoidBinarize P G d ps).TKV_GT
        = some ((d.dim0 : ℚ) ^ 2 / (d.transform_resize_dim0 : ℚ) ^ 2
            * d.vox_vol * (posCount G : ℚ))
    ∧ ((d.dim0 : ℚ) ^ 2 / (d.transform_resize_dim0 : ℚ) ^ 2 = 1 →
        (examPredsToStat ε sigmoidBinarize P G d ps).TKV_Pred
            = some (d.vox_vol * (posCount P : ℚ))
        ∧ (examPredsToStat ε sigmoidBinarize P G d ps).TKV_GT
            = some (d.vox_vol * (posCount G : ℚ))) := by
  refine ⟨?_, ?_, fun h1 => ⟨?_, ?_⟩⟩ <;>
    simp [examPredsToStat, volSum_binarize, *]

theorem tkv_eq_scale_mul_voxvol_mul_count_witness :
    ((c3D.dim0 : ℚ) ^ 2 / (c3D.transform_resize_dim0 : ℚ) ^ 2 = 1)
    ∧ (examPredsToStat 1 sigmoidBinarize c3P c3G c3D none).TKV_Pred
        = some (c3D.vox_vol * (posCount c3P : ℚ)) := by
  refine ⟨by norm_num [c3D], ?_⟩
  exact ((tkv_eq_scale_mul_voxvol_mul_count 1 c3P c3G c3D none).2.2
    (by norm_num [c3D])).1

/-- C4: the scale factor stored by `exam_preds_to_stat` is the squared
ratio `dim[0]² / transform_resize_dim[0]²`, and it is at least 1
whenever the (positive) resize-target dimension is at most the original
dimension. -/
theorem scale_factor_squared_ratio {s h w : ℕ} (ε : ℚ)
    (P G : Vol s h w) (d : AttribDict) (ps : Option ℚ) :
    (examPredsToStat ε sigmoidBinarize P G d ps).scale_factor
        = some ((d.dim0 : ℚ) ^ 2 / (d.transform_resize_dim0 : ℚ) ^ 2)
    ∧ (0 < d.transform_resize_dim0 → d.transform_resize_dim0 ≤ d.dim0 →
        1 ≤ (d.dim0 : ℚ) ^ 2 / (d.transform_resize_dim0 : ℚ) ^ 2) := by
  refine ⟨rfl, fun hpos hle => ?_⟩
  have hb : (0 : ℚ) < (d.transform_resize_dim0 : ℚ) ^ 2 := by positivity
  rw [one_le_div hb]
  have : (d.transform_resize_dim0 : ℚ) ≤ (d.dim0 : ℚ) := by exact_mod_cast hle
  have h0 : (0 : ℚ) ≤ (d.transform_resize_dim0 : ℚ) := by positivity
  exact pow_le_pow_left₀ h0 this 2

theorem scale_factor_squared_ratio_witness :
    (0 < c3D.transform_resize_dim0 ∧ c3D.transform_resize_dim0 ≤ c3D.dim0)
    ∧ 1 ≤ (c3D.dim0 : ℚ) ^ 2 / (c3D.transform_resize_dim0 : ℚ) ^ 2 := by
  refine ⟨by decide, ?_⟩
  exact (scale_factor_squared_ratio 1 c3P c3G c3D none).2 (by decide) (by decide)

/-- C7 counterexample: a `JsonDatasetGetter` whose `splitter_key` is
absent from the loaded split object fails with the builtin `KeyError`
raised by `dataset_split[splitter_key]`; no `ConfigurationError` is
raised (no such class exists in the code). -/
theorem missing_split_key_raises_keyerror_not_configerror :
    jsonDatasetGetterPatientIDs [("TRAIN", ["patient1"])] "VAL"
        = Except.error (PyExc.keyError "VAL")
    ∧ isConfigurationError
        (jsonDatasetGetterPatientIDs [("TRAIN", ["patient1"])] "VAL") = false := by
  exact ⟨rfl, rfl⟩

/-- C7 (amended): when the `splitter_key` is not a top-level key of the
loaded JSON split object, `JsonDatasetGetter` construction fails — with
the builtin `KeyError`, not a `ConfigurationError`. -/
theorem missing_split_key_fails_with_keyerror
    (dataset_split : List (String × List String)) (splitter_key : String)
    (h : dataset_split.lookup splitter_key = none) :
    jsonDatasetGetterPatientIDs dataset_split splitter_key
      = Except.error (PyExc.keyError splitter_key) := by
  simp [jsonDatasetGetterPatientIDs, h]

theorem missing_split_key_fails_with_keyerror_witness :
    (List.lookup "TEST" [("TRAIN", ["patient1"])] = (none : Option (List String)))
    ∧ jsonDatasetGetterPatientIDs [("TRAIN", ["patient1"])] "TEST"
        = Except.error (PyExc.keyError "TEST") :=
  ⟨by decide, missing_split_key_fails_with_keyerror _ _ (by decide)⟩

/-- C5: the Dice value stored by the statistics engine is
`(2·|P∩G| + ε)/(|P| + |G| + ε)` over all voxels of the whole volumes
jointly, prediction binarized by the sigmoid-0.5 rule; consequently
`Dice(P, P) = 1` for every non-empty 0/1 volume `P` and
`Dice(P, ∅) = ε/(|P| + ε) < 1` against an empty (all-zero) ground
truth. -/
theorem dice_joint_formula_and_degenerate_values {s h w : ℕ} (ε : ℚ)
    (P G : Vol s h w) (d : AttribDict) (ps : Option ℚ) :
    (examPredsToStat ε sigmoidBinarize P G d ps).patient_dice
        = some ((2 * volSum (fun i j k => sigmoidBinarize (P i j k) * G i j k) + ε)
            / (volSum (fun i j k => sigmoidBinarize (P i j k)) + volSum G + ε))
    ∧ (0 < ε → (∀ i j k, P i j k = 0 ∨ P i j k = 1) →
        diceMetric ε sigmoidBinarize P P = 1)
    ∧ (0 < ε → (∀ i j k, P i j k = 0 ∨ P i j k = 1) →
        (∃ i j k, P i j k = 1) →
        diceMetric ε sigmoidBinarize P (fun _ _ _ => 0) = ε / (volSum P + ε)
        ∧ diceMetric ε sigmoidBinarize P (fun _ _ _ => 0) < 1) := by
  refine ⟨rfl, fun hε h01 => ?_, fun hε h01 hne => ?_⟩
  · have hb : (fun i j k => sigmoidBinarize (P i j k)) = fun i j k => P i j k :=
      funext fun i => funext fun j => funext fun k => binarize_of_01 h01 i j k
    have hbp : (fun i j k => sigmoidBinarize (P i j k) * P i j k)
        = fun i j k => P i j k := by
      funext i j k
      rcases h01 i j k with hc | hc <;> simp [hc, sigmoidBinarize]
    have hS : 0 ≤ volSum P :=
      volSum_nonneg fun i j k => by rcases h01 i j k with hc | hc <;> simp [hc]
    have hden : volSum P + volSum P + ε ≠ 0 := by positivity
    rw [diceMetric, hb, hbp, div_eq_one_iff_eq hden]
    ring
  · have hb : (fun i j k => sigmoidBinarize (P i j k)) = fun i j k => P i j k :=
      funext fun i => funext fun j => funext fun k => binarize_of_01 h01 i j k
    have h0 : ∀ i j k, 0 ≤ P i j k := fun i j k => by
      rcases h01 i j k with hc | hc <;> simp [hc]
    have hS : 0 < volSum P := by
      obtain ⟨i, j, k, h1⟩ := hne
      exact volSum_pos h0 i j k (by rw [h1]; norm_num)
    have hz : volSum (fun _ _ _ => (0 : ℚ) : Vol s h w) = 0 := by
      simp [volSum]
    have heq : diceMetric ε sigmoidBinarize P (fun _ _ _ => 0)
        = ε / (volSum P + ε) := by
      rw [diceMetric, hb]
      simp [hz]
    refine ⟨heq, ?_⟩
    rw [heq, div_lt_one (by positivity)]
    linarith

theorem dice_joint_formula_and_degenerate_values_witness :
    ((0 : ℚ) < 1 ∧ (∀ i j k, c5P i j k = 0 ∨ c5P i j k = 1)
      ∧ (∃ i j k, c5P i j k = 1))
    ∧ diceMetric 1 sigmoidBinarize c5P c5P = 1
    ∧ diceMetric 1 sigmoidBinarize c5P (fun _ _ _ => 0) < 1 := by
  refine ⟨⟨by norm_num, by decide, by decide⟩, ?_, ?_⟩
  · exact (dice_joint_formula_and_degenerate_values 1 c5P c5P c5D none).2.1
      (by norm_num) (by decide)
  · exact ((dice_joint_formula_and_degenerate_values 1 c5P c5P c5D none).2.2
      (by norm_num) (by decide) (by decide)).2

/-- C8 counterexample: a study directory with zero slice artifacts is
not skipped with a warning — `np.stack([])` raises `ValueError` and the
whole aggregation run aborts, losing the remaining (well-formed)
studies; and a study with slices but no attributes sidecar raises the
builtin `IndexError` at `attribs_dicts[0]`, not a
`MissingMetadataError`. -/
theorem zero_slice_study_aborts_run :
    processStudies 1 sigmoidBinarize [c8Empty, c8Good] = Except.error PyExc.valueError
    ∧ processStudy 1 sigmoidBinarize c8NoAttrib = Except.error (PyExc.indexError 0) :=
  ⟨rfl, rfl⟩

/-- C8 (amended): a study with zero slice artifacts makes the
aggregation loop raise `ValueError` (from `np.stack([])`) and abort —
remaining studies are not processed; a study whose sidecar list is
empty (so the reference slice at index 0 has no attributes artifact)
raises the builtin `IndexError`. -/
theorem study_loop_failure_modes {h w : ℕ} (ε : ℚ) (pp : ℚ → ℚ)
    (sd : StudyArtifacts h w) (rest : List (StudyArtifacts h w))
    (he : sd.imgs = []) :
    processStudies ε pp (sd :: rest) = Except.error PyExc.valueError
    ∧ ∀ sd' : StudyArtifacts h w, sd'.attribs = [] → sd'.imgs ≠ [] →
        sd'.preds ≠ [] → sd'.grounds ≠ [] →
        sd'.grounds.length = sd'.preds.length →
        processStudy ε pp sd' = Except.error (PyExc.indexError 0) := by
  constructor
  · have h1 : processStudy ε pp sd = Except.error PyExc.valueError := by
      simp [processStudy, he]
    simp only [processStudies, h1]
    rfl
  · intro sd' ha hi hp hg hlen
    simp [processStudy, ha, hi, hp, hg, hlen]

theorem study_loop_failure_modes_witness :
    (c8Empty.imgs = [])
    ∧ processStudies 1 sigmoidBinarize [c8Empty, c8Good]
        = Except.error PyExc.valueError :=
  ⟨rfl, (study_loop_failure_modes 1 sigmoidBinarize c8Empty [c8Good] rfl).1⟩

/-- C9: `exam_preds_to_stat` updates its `attrib_dict` argument in
place and returns the very same object: the returned reference is the
argument's address, every other store cell is untouched, only the six
stats keys of the addressed dictionary change, and a second (combined)
call through the same address — exactly what `compute_inference_stats`
does with `all_summaries[key][0]` — overwrites the stored per-model
summary with the combined values. -/
theorem exam_preds_to_stat_updates_in_place {s h w : ℕ} (ε : ℚ) (pp : ℚ → ℚ)
    (P G Pm : Vol s h w) (σ : Store) (a : ℕ) (ps : Option ℚ) (std : ℚ)
    (ha : a < σ.length) :
    (examPredsToStatRef ε pp P G σ a ps).2 = a
    ∧ (∀ b, b ≠ a → ((examPredsToStatRef ε pp P G σ a ps).1)[b]? = σ[b]?)
    ∧ (((examPredsToStatRef ε pp P G σ a ps).1.getD a default).dim0
          = (σ.getD a default).dim0
        ∧ ((examPredsToStatRef ε pp P G σ a ps).1.getD a default).transform_resize_dim0
          = (σ.getD a default).transform_resize_dim0
        ∧ ((examPredsToStatRef ε pp P G σ a ps).1.getD a default).vox_vol
          = (σ.getD a default).vox_vol
        ∧ ((examPredsToStatRef ε pp P G σ a ps).1.getD a default).patient
          = (σ.getD a default).patient
        ∧ ((examPredsToStatRef ε pp P G σ a ps).1.getD a default).MR
          = (σ.getD a default).MR
        ∧ ((examPredsToStatRef ε pp P G σ a ps).1.getD a default).extra
          = (σ.getD a default).extra)
    ∧ ((examPredsToStatRef ε pp Pm G (examPredsToStatRef ε pp P G σ a ps).1 a
          (some std)).1)[a]?
        = some (examPredsToStat ε pp Pm G
            (examPredsToStat ε pp P G (σ.getD a default) ps) (some std)) := by
  have key : ∀ v : AttribDict, (List.set σ a v).getD a default = v := fun v => by
    have hs : (List.set σ a v)[a]? = some v := List.getElem?_set_self ha
    simp [List.getD, hs]
  refine ⟨rfl, fun b hb => ?_, ?_, ?_⟩
  · exact List.getElem?_set_ne (Ne.symm hb)
  · have hget : (examPredsToStatRef ε pp P G σ a ps).1.getD a default
        = examPredsToStat ε pp P G (σ.getD a default) ps := key _
    rw [hget]
    exact ⟨rfl, rfl, rfl, rfl, rfl, rfl⟩
  · simp only [examPredsToStatRef]
    rw [key, List.set_set]
    exact List.getElem?_set_self (by simpa using ha)

theorem exam_preds_to_stat_updates_in_place_witness :
    0 < [c9D].length
    ∧ (examPredsToStatRef 1 sigmoidBinarize c5P c5P [c9D] 0 none).2 = 0 :=
  ⟨by decide,
    (exam_preds_to_stat_updates_in_place 1 sigmoidBinarize c5P c5P c5P [c9D] 0
      none 0 (by decide)).1⟩

/-- C1: the exposed `self.dcm_paths` list is NOT re-sorted by
(group key, slice rank).  The two rows below share one group and carry
ranks 1 and 0 respectively, yet the exposed list keeps the construction
order `["a", "b"]`: the second groupby loop calls
`group.sort_values(by="slice_pos", inplace=True)` on the copies yielded
by the iterator and never writes back into `dataset`, contradicting the
comment `# Sorts Studies by Z axis` above it. -/
theorem dcm_paths_not_resorted_by_group_and_rank :
    inferenceDcmPaths [c1Row0, c1Row1] = ["a".data, "b".data]
    ∧ groupKeyOf c1Row0 = groupKeyOf c1Row1
    ∧ recordSlicePos [c1Row0, c1Row1] c1Row0 = some 1
    ∧ recordSlicePos [c1Row0, c1Row1] c1Row1 = some 0 := by
  refine ⟨rfl, rfl, ?_, ?_⟩ <;> decide

/-! Lemmas for the slice-rank characterization (C2). -/

theorem lookup_append_of_not_mem_keys {K β : Type} [DecidableEq K] :
    ∀ (l₁ l₂ : List (K × β)) (v : K), v ∉ l₁.map Prod.fst →
      (l₁ ++ l₂).lookup v = l₂.lookup v
  | [], _, _, _ => rfl
  | (k, b) :: xs, l₂, v, hv => by
      simp only [List.map_cons, List.mem_cons, not_or] at hv
      rw [List.cons_append]
      rw [show ((k, b) :: (xs ++ l₂)).lookup v = (xs ++ l₂).lookup v by
        simp [List.lookup, beq_eq_false_iff_ne.mpr hv.1]]
      exact lookup_append_of_not_mem_keys xs l₂ v hv.2

theorem lookup_append_of_eq_some {K β : Type} [DecidableEq K] :
    ∀ (l₁ l₂ : List (K × β)) (v : K) (y : β), l₁.lookup v = some y →
      (l₁ ++ l₂).lookup v = some y
  | [], _, _, _, hy => by simp [List.lookup] at hy
  | (k, b) :: xs, l₂, v, y, hy => by
      by_cases hvx : v = k
      · simpa [List.lookup, hvx] using hy
      · have hb : (v == k) = false := beq_eq_false_iff_ne.mpr hvx
        simp only [List.lookup_cons, hb, cond_false] at hy
        rw [List.cons_append]
        rw [show ((k, b) :: (xs ++ l₂)).lookup v = (xs ++ l₂).lookup v by
          simp [List.lookup, hb]]
        exact lookup_append_of_eq_some xs l₂ v y hy

theorem lookup_reverse_zip_range' {K : Type} [DecidableEq K] :
    ∀ (l : List K) (a : ℕ) (v : K), l.Nodup → v ∈ l →
      ((l.zip (List.range' a l.length)).reverse).lookup v
        = some (a + l.indexOf v)
  | [], _, v, _, hv => absurd hv (List.not_mem_nil v)
  | x :: xs, a, v, hnd, hv => by
      obtain ⟨hx, hnd'⟩ := List.nodup_cons.mp hnd
      have hzip : (x :: xs).zip (List.range' a (x :: xs).length)
          = (x, a) :: xs.zip (List.range' (a + 1) xs.length) := rfl
      rw [hzip, List.reverse_cons]
      rcases List.mem_cons.mp hv with hvx | hvxs
      · subst hvx
        have hkeys :
            v ∉ ((xs.zip (List.range' (a + 1) xs.length)).reverse).map Prod.fst := by
          rw [List.map_reverse, List.mem_reverse,
            List.map_fst_zip xs _ (by simp)]
          exact hx
        rw [lookup_append_of_not_mem_keys _ _ _ hkeys]
        simp [List.lookup, List.indexOf_cons_self]
      · have hvne : x ≠ v := fun h => hx (h ▸ hvxs)
        have ih := lookup_reverse_zip_range' xs (a + 1) v hnd' hvxs
        rw [lookup_append_of_eq_some _ _ _ _ ih, List.indexOf_cons_ne _ hvne]
        congr 1
        omega

theorem indexOf_sorted_eq_filter_length {K : Type} [LinearOrder K] :
    ∀ (l : List K), l.Sorted (· ≤ ·) → l.Nodup → ∀ v ∈ l,
      l.indexOf v = (l.filter fun z => z < v).length
  | [], _, _, v, hv => absurd hv (List.not_mem_nil v)
  | x :: xs, hs, hnd, v, hv => by
      obtain ⟨hx, hnd'⟩ := List.nodup_cons.mp hnd
      have hxle : ∀ y ∈ xs, x ≤ y := List.rel_of_sorted_cons hs
      rcases List.mem_cons.mp hv with hvx | hvxs
      · subst hvx
        rw [List.indexOf_cons_self]
        have hnil : ((v :: xs).filter fun z => z < v) = [] := by
          rw [List.filter_eq_nil_iff]
          intro y hy
          rcases List.mem_cons.mp hy with hyx | hyxs
          · simp [hyx]
          · simpa using not_lt_of_le (hxle y hyxs)
        rw [hnil]
        rfl
      · have hvne : x ≠ v := fun h => hx (h ▸ hvxs)
        have hxv : x < v := lt_of_le_of_ne (hxle v hvxs) hvne
        rw [List.indexOf_cons_ne _ hvne]
        have hf : ((x :: xs).filter fun z => z < v)
            = x :: (xs.filter fun z => z < v) := by
          simp [List.filter_cons, hxv]
        rw [hf, List.length_cons,
          indexOf_sorted_eq_filter_length xs hs.of_cons hnd' v hvxs]

/-- Rank characterization of the `slice_map` dictionary: on a
duplicate-free key list, the rank of a key is the number of strictly
smaller keys. -/
theorem sliceMap_eq_count_smaller {K : Type} [LinearOrder K]
    (zs : List K) (hn : zs.Nodup) (v : K) (hv : v ∈ zs) :
    sliceMap zs v = some ((zs.filter fun x => x < v).length) := by
  have hperm := List.perm_insertionSort (fun a b : K => a ≤ b) zs
  have hsorted := List.sorted_insertionSort (fun a b : K => a ≤ b) zs
  have hnd : (zs.insertionSort (fun a b => a ≤ b)).Nodup := hperm.nodup_iff.mpr hn
  have hv' : v ∈ zs.insertionSort (fun a b => a ≤ b) := hperm.mem_iff.mpr hv
  have hlen : zs.length = (zs.insertionSort (fun a b => a ≤ b)).length :=
    (hperm.length_eq).symm
  rw [sliceMap, hlen, List.range_eq_range',
    lookup_reverse_zip_range' _ 0 v hnd hv', Nat.zero_add,
    indexOf_sorted_eq_filter_length _ hsorted hnd v hv',
    (hperm.filter _).length_eq]

/-- C2: within each exact-match group, when every member carries a
z-position and the z-positions are pairwise distinct, the `slice_pos`
rank of a member is the index of its z-position in ascending sorted
order (the number of strictly smaller z-positions in the group); when
any member's z-position is missing, every member is instead ranked by
lexical file-path order. -/
theorem group_slice_rank (rows : List InfRecord) (r : InfRecord)
    (hr : r ∈ rows) :
    ((∀ q ∈ groupRows rows r, q.z_pos.isSome) →
      (((groupRows rows r).map fun q => q.z_pos.getD 0).Nodup) →
      recordSlicePos rows r
        = some (((groupRows rows r).filter
            fun q => q.z_pos.getD 0 < r.z_pos.getD 0).length))
    ∧ ((∃ q ∈ groupRows rows r, q.z_pos = none) →
      (((groupRows rows r).map fun q => q.dcm_path).Nodup) →
      recordSlicePos rows r
        = some (((groupRows rows r).filter
            fun q => q.dcm_path < r.dcm_path).length)) := by
  have hrg : r ∈ groupRows rows r := List.mem_filter.mpr ⟨hr, by simp⟩
  constructor
  · intro hall hnd
    have hany : (groupRows rows r).any (fun q => q.z_pos.isNone) = false := by
      rw [List.any_eq_false]
      intro q hq
      have hqs := hall q hq
      cases hz : q.z_pos with
      | none => rw [hz] at hqs; exact absurd hqs (by simp)
      | some z => simp [hz]
    rw [recordSlicePos]
    simp only [hany, Bool.false_eq_true, if_false]
    rw [sliceMap_eq_count_smaller _ hnd _
      (List.mem_map_of_mem (fun q => q.z_pos.getD 0) hrg)]
    congr 1
    rw [← List.countP_eq_length_filter, ← List.countP_eq_length_filter,
      List.countP_map]
    rfl
  · intro hex hnd
    have hany : (groupRows rows r).any (fun q => q.z_pos.isNone) = true := by
      rw [List.any_eq_true]
      obtain ⟨q, hq, hqn⟩ := hex
      exact ⟨q, hq, by simp [hqn]⟩
    rw [recordSlicePos]
    simp only [hany, if_true]
    rw [sliceMap_eq_count_smaller _ hnd _
      (List.mem_map_of_mem (fun q => q.dcm_path) hrg)]
    congr 1
    rw [← List.countP_eq_length_filter, ← List.countP_eq_length_filter,
      List.countP_map]
    rfl

/-! Lemmas for the ensemble combination (C6). -/

theorem meanAxis0_pair_self {s h w : ℕ} (u : Fin h → Fin w → Fin s → ℚ) :
    meanAxis0 [u, u] = u := by
  funext i j k
  simp only [meanAxis0, List.map_cons, List.map_nil, List.sum_cons,
    List.sum_nil, List.length_cons, List.length_nil]
  push_cast
  ring

theorem npMean_append_self (xs : List ℚ) : npMean (xs ++ xs) = npMean xs := by
  unfold npMean
  rw [List.sum_append, List.length_append]
  push_cast
  rw [show xs.sum + xs.sum = 2 * xs.sum by ring,
    show (xs.length : ℚ) + (xs.length : ℚ) = 2 * (xs.length : ℚ) by ring,
    mul_div_mul_left _ _ (two_ne_zero)]

theorem npVar_append_self (xs : List ℚ) : npVar (xs ++ xs) = npVar xs := by
  unfold npVar
  rw [npMean_append_self, List.map_append, List.sum_append, List.length_append]
  push_cast
  rw [show ((xs.map fun x => (x - npMean xs) ^ 2).sum
        + (xs.map fun x => (x - npMean xs) ^ 2).sum)
      = 2 * (xs.map fun x => (x - npMean xs) ^ 2).sum by ring,
    show (xs.length : ℚ) + (xs.length : ℚ) = 2 * (xs.length : ℚ) by ring,
    mul_div_mul_left _ _ (two_ne_zero)]

theorem npStd_append_self (xs : List ℚ) : npStd (xs ++ xs) = npStd xs := by
  unfold npStd
  rw [npVar_append_self]

/-- C6 (amended): for an ensemble of exactly 2 models with identical
prediction volumes and the (model-invariant) shared ground truth, the
combined summary's Dice value equals each individual model's Dice
value, but its `Pred_stdev` is the population standard deviation of
ALL voxel values of the resized stack pooled together
(`np.std` with no `axis` argument) — the standard deviation of the
shared volume's voxels, zero only for a constant volume — not 0
unconditionally. -/
theorem combined_identical_preds {s n : ℕ} (ε : ℚ) (P G : Vol s n n)
    (d d2 : AttribDict) :
    (combinedSummary ε sigmoidBinarize [P, P] [G, G]
        [examPredsToStat ε sigmoidBinarize P G d none,
          examPredsToStat ε sigmoidBinarize P G d2 none]).patient_dice
      = (examPredsToStat ε sigmoidBinarize P G d none).patient_dice
    ∧ (combinedSummary ε sigmoidBinarize [P, P] [G, G]
        [examPredsToStat ε sigmoidBinarize P G d none,
          examPredsToStat ε sigmoidBinarize P G d2 none]).patient_dice
      = (examPredsToStat ε sigmoidBinarize P G d2 none).patient_dice
    ∧ (combinedSummary ε sigmoidBinarize [P, P] [G, G]
        [examPredsToStat ε sigmoidBinarize P G d none,
          examPredsToStat ε sigmoidBinarize P G d2 none]).Pred_stdev
      = some (npStd (volEntriesHWS (reshapeHWS P))) := by
  have hmean : backToSHW (meanAxis0 (resizedStack [P, P])) = P := by
    rw [show resizedStack [P, P] = [reshapeHWS P, reshapeHWS P] from rfl,
      meanAxis0_pair_self]
    rfl
  have hflat : ((resizedStack [P, P]).map volEntriesHWS).flatten
      = volEntriesHWS (reshapeHWS P) ++ volEntriesHWS (reshapeHWS P) := by
    simp [resizedStack]
  refine ⟨?_, ?_, ?_⟩
  · simp only [combinedSummary, hmean]
    rfl
  · simp only [combinedSummary, hmean]
    rfl
  · simp only [combinedSummary, hmean, hflat, npStd_append_self]
    rfl

/-- C6 counterexample: an ensemble of exactly 2 models with identical
prediction volumes for one study, yet the combined summary's
`Pred_stdev` is 1, not 0 — `pred_std = np.std(all_pred_vol[key])` pools
every voxel of the stack instead of measuring the across-model spread,
so identical non-constant predictions give a nonzero value. -/
theorem combined_identical_preds_stdev_nonzero :
    (combinedSummary 1 sigmoidBinarize [c6P, c6P] [c6G, c6G]
        [c6S1, c6S1]).Pred_stdev = some 1
    ∧ (combinedSummary 1 sigmoidBinarize [c6P, c6P] [c6G, c6G]
        [c6S1, c6S1]).Pred_stdev ≠ some 0 := by
  have hentries : ((resizedStack [c6P, c6P]).map volEntriesHWS).flatten
      = [2, 0, 0, 2, 2, 0, 0, 2] := by decide
  have hval : (combinedSummary 1 sigmoidBinarize [c6P, c6P] [c6G, c6G]
      [c6S1, c6S1]).Pred_stdev
      = some (npStd ((resizedStack [c6P, c6P]).map volEntriesHWS).flatten) := rfl
  have hstd : npStd [2, 0, 0, 2, 2, 0, 0, 2] = 1 := by
    rw [npStd, show npVar [2, 0, 0, 2, 2, 0, 0, 2] = 1 by
      norm_num [npVar, npMean], Rat.sqrt]
    norm_num [Int.sqrt]
  rw [hval, hentries, hstd]
  exact ⟨rfl, by norm_num⟩

theorem group_slice_rank_witness :
    recordSlicePos [c2w0, c2w1] c2w0 = some 1
    ∧ recordSlicePos [c2m0, c2m1] c2m1 = some 1 := by
  constructor
  · have h := (group_slice_rank [c2w0, c2w1] c2w0 (by decide)).1
      (by decide) (by decide)
    rw [h]
    decide
  · have h := (group_slice_rank [c2m0, c2m1] c2m1 (by decide)).2
      ⟨c2m0, by decide, by decide⟩ (by decide)
    rw [h]
    decide

/-! Lemmas for Python slice semantics (C10). -/

theorem clampIndex_bounds (length : ℕ) (lower upper v : ℤ) (hlu : lower ≤ upper) :
    lower ≤ clampIndex length lower upper v
    ∧ clampIndex length lower upper v ≤ upper := by
  simp only [clampIndex]
  split_ifs <;> omega

theorem sliceIndices_bounds (n : ℕ) (start stop step : Option ℤ) :
    ((0 < step.getD 1 →
      0 ≤ (sliceIndices n start stop step).1
      ∧ (sliceIndices n start stop step).1 ≤ n
      ∧ 0 ≤ (sliceIndices n start stop step).2.1
      ∧ (sliceIndices n start stop step).2.1 ≤ n))
    ∧ (¬ 0 < step.getD 1 →
      -1 ≤ (sliceIndices n start stop step).1
      ∧ (sliceIndices n start stop step).1 ≤ (n : ℤ) - 1
      ∧ -1 ≤ (sliceIndices n start stop step).2.1
      ∧ (sliceIndices n start stop step).2.1 ≤ (n : ℤ) - 1) := by
  constructor <;> intro hst <;>
    rcases start with _ | sv <;> rcases stop with _ | pv <;>
      simp only [sliceIndices, hst, if_true, if_false] <;>
        refine ⟨?_, ?_, ?_, ?_⟩ <;>
          first
            | omega
            | (exact (clampIndex_bounds n _ _ _ (by omega)).1)
            | (exact (clampIndex_bounds n _ _ _ (by omega)).2)

theorem sliceIndices_step_eq (n : ℕ) (start stop step : Option ℤ) :
    (sliceIndices n start stop step).2.2 = step.getD 1 := by
  rcases start with _ | sv <;> rcases stop with _ | pv <;> rfl

theorem pythonRange_mem_bounds_pos {b e st : ℤ} (hst : 0 < st) {i : ℤ}
    (hi : i ∈ pythonRange b e st) : b ≤ i ∧ i < e := by
  unfold pythonRange at hi
  rw [if_pos hst] at hi
  obtain ⟨k, hk, rfl⟩ := List.mem_map.mp hi
  rw [List.mem_range] at hk
  have hk0 : (0 : ℤ) ≤ (k : ℤ) := Int.ofNat_nonneg k
  constructor
  · have hnn : (0 : ℤ) ≤ st * (k : ℤ) := mul_nonneg (le_of_lt hst) hk0
    linarith
  · have hs1 : 1 ≤ st.toNat := by omega
    have h1 : (((e - b).toNat + (st.toNat - 1)) / st.toNat) * st.toNat
        ≤ (e - b).toNat + (st.toNat - 1) := Nat.div_mul_le_self _ _
    have h2 : (k + 1) * st.toNat
        ≤ (((e - b).toNat + (st.toNat - 1)) / st.toNat) * st.toNat :=
      Nat.mul_le_mul_right _ hk
    rw [add_one_mul] at h2
    have h3 : k * st.toNat + st.toNat ≤ (e - b).toNat + (st.toNat - 1) :=
      le_trans h2 h1
    have h4 : k * st.toNat < (e - b).toNat := by
      generalize k * st.toNat = m at h3
      omega
    have hcast : st * (k : ℤ) = ((k * st.toNat : ℕ) : ℤ) := by
      push_cast
      rw [mul_comm]
      congr 1
      omega
    have h5 : st * (k : ℤ) < ((e - b).toNat : ℤ) := by
      rw [hcast]
      exact_mod_cast h4
    have h6 : ((e - b).toNat : ℤ) ≤ e - b := by
      generalize hm : k * st.toNat = m at h4
      omega
    linarith

theorem pythonRange_mem_bounds_neg {b e st : ℤ} (hst : st < 0) {i : ℤ}
    (hi : i ∈ pythonRange b e st) : e < i ∧ i ≤ b := by
  unfold pythonRange at hi
  rw [if_neg (by omega), if_pos hst] at hi
  obtain ⟨k, hk, rfl⟩ := List.mem_map.mp hi
  rw [List.mem_range] at hk
  have hk0 : (0 : ℤ) ≤ (k : ℤ) := Int.ofNat_nonneg k
  constructor
  · have hs1 : 1 ≤ (-st).toNat := by omega
    have h1 : (((b - e).toNat + ((-st).toNat - 1)) / (-st).toNat) * (-st).toNat
        ≤ (b - e).toNat + ((-st).toNat - 1) := Nat.div_mul_le_self _ _
    have h2 : (k + 1) * (-st).toNat
        ≤ (((b - e).toNat + ((-st).toNat - 1)) / (-st).toNat) * (-st).toNat :=
      Nat.mul_le_mul_right _ hk
    rw [add_one_mul] at h2
    have h3 : k * (-st).toNat + (-st).toNat ≤ (b - e).toNat + ((-st).toNat - 1) :=
      le_trans h2 h1
    have h4 : k * (-st).toNat < (b - e).toNat := by
      generalize k * (-st).toNat = m at h3
      omega
    have hcast : (-st) * (k : ℤ) = ((k * (-st).toNat : ℕ) : ℤ) := by
      push_cast
      rw [mul_comm]
      congr 1
      omega
    have h5 : (-st) * (k : ℤ) < (((b - e).toNat : ℕ) : ℤ) := by
      rw [hcast]
      exact_mod_cast h4
    have h6 : (((b - e).toNat : ℕ) : ℤ) ≤ b - e := by
      generalize hm : k * (-st).toNat = m at h4
      omega
    linarith
  · have hnn : st * (k : ℤ) ≤ 0 := mul_nonpos_of_nonpos_of_nonneg (le_of_lt hst) hk0
    linarith

theorem pythonRange_pairwise_ascending {b e st : ℤ} (hst : 0 < st) :
    (pythonRange b e st).Pairwise (· < ·) := by
  unfold pythonRange
  rw [if_pos hst]
  refine List.Pairwise.map _ (fun x y hxy => ?_) (List.pairwise_lt_range _)
  have : (x : ℤ) < (y : ℤ) := by exact_mod_cast hxy
  have := mul_lt_mul_of_pos_left this hst
  linarith

theorem pythonRange_pairwise_descending {b e st : ℤ} (hst : st < 0) :
    (pythonRange b e st).Pairwise (fun x y => y < x) := by
  unfold pythonRange
  rw [if_neg (by omega), if_pos hst]
  refine List.Pairwise.map _ (fun x y hxy => ?_) (List.pairwise_lt_range _)
  have hc : (x : ℤ) < (y : ℤ) := by exact_mod_cast hxy
  have := mul_lt_mul_of_neg_left hc hst
  linarith

theorem pyListGet_eq_getD {α : Type} (l : List α) (i : ℤ) (d : α)
    (h0 : 0 ≤ i) (hn : i.toNat < l.length) :
    pyListGet l i = some (l.getD i.toNat d) := by
  simp only [pyListGet, if_neg (not_lt.mpr h0), if_pos h0]
  rw [List.getElem?_eq_getElem hn, List.getD, List.get?_eq_getElem?,
    List.getElem?_eq_getElem hn]
  rfl

theorem mapM_except_ok {α β γ : Type} (f : α → Except γ β) (g : α → β) :
    ∀ l : List α, (∀ x ∈ l, f x = Except.ok (g x)) →
      l.mapM f = Except.ok (l.map g)
  | [], _ => rfl
  | x :: xs, h => by
      rw [List.mapM_cons, h x (List.mem_cons_self x xs),
        mapM_except_ok f g xs (fun y hy => h y (List.mem_cons_of_mem x hy))]
      rfl

/-- C10 (amended): for either dataset, `d[s]` for a Python slice `s`
with nonzero step returns `[d[i] for i in range(*s.indices(len(d)))]`
without raising — every generated index is valid, out-of-range bounds
having been clamped by `slice.indices` — and the samples come in the
order the slice denotes: ascending for a positive step, DESCENDING for
a negative step (not unconditionally ascending). -/
theorem getitem_slice_returns_ranged_samples {α : Type} (dcm_paths : List String)
    (build : String → α) (start stop step : Option ℤ) (hstep : step ≠ some 0) :
    segmentationGetitemSlice dcm_paths build start stop step
      = Except.ok ((pythonRange (sliceIndices dcm_paths.length start stop step).1
          (sliceIndices dcm_paths.length start stop step).2.1
          (sliceIndices dcm_paths.length start stop step).2.2).map
          fun i => build (dcm_paths.getD i.toNat ""))
    ∧ inferenceGetitemSlice dcm_paths build start stop step
      = Except.ok ((pythonRange (sliceIndices dcm_paths.length start stop step).1
          (sliceIndices dcm_paths.length start stop step).2.1
          (sliceIndices dcm_paths.length start stop step).2.2).map
          fun i => build (dcm_paths.getD i.toNat ""))
    ∧ (0 < step.getD 1 →
        List.Pairwise (· < ·)
          (pythonRange (sliceIndices dcm_paths.length start stop step).1
            (sliceIndices dcm_paths.length start stop step).2.1
            (sliceIndices dcm_paths.length start stop step).2.2))
    ∧ (step.getD 1 < 0 →
        List.Pairwise (fun x y => y < x)
          (pythonRange (sliceIndices dcm_paths.length start stop step).1
            (sliceIndices dcm_paths.length start stop step).2.1
            (sliceIndices dcm_paths.length start stop step).2.2)) := by
  have hstnz : step.getD 1 ≠ 0 := by
    rcases step with _ | v
    · exact one_ne_zero
    · simp only [Option.getD]
      intro hv
      exact hstep (by rw [hv])
  have hbounds := sliceIndices_bounds dcm_paths.length start stop step
  have hstep_eq := sliceIndices_step_eq dcm_paths.length start stop step
  have hvalid : ∀ i ∈ pythonRange (sliceIndices dcm_paths.length start stop step).1
      (sliceIndices dcm_paths.length start stop step).2.1
      (sliceIndices dcm_paths.length start stop step).2.2,
      0 ≤ i ∧ i.toNat < dcm_paths.length := by
    intro i hi
    by_cases hpos : 0 < step.getD 1
    · have hb := hbounds.1 hpos
      have := pythonRange_mem_bounds_pos (by rw [hstep_eq]; exact hpos) hi
      omega
    · have hneg : step.getD 1 < 0 := by omega
      have hb := hbounds.2 hpos
      have := pythonRange_mem_bounds_neg (by rw [hstep_eq]; exact hneg) hi
      omega
  have hmap : (pythonRange (sliceIndices dcm_paths.length start stop step).1
      (sliceIndices dcm_paths.length start stop step).2.1
      (sliceIndices dcm_paths.length start stop step).2.2).mapM
        (fun i => match pyListGet dcm_paths i with
          | some p => Except.ok (build p)
          | none => Except.error (PyExc.indexError i.toNat))
      = Except.ok ((pythonRange (sliceIndices dcm_paths.length start stop step).1
          (sliceIndices dcm_paths.length start stop step).2.1
          (sliceIndices dcm_paths.length start stop step).2.2).map
          fun i => build (dcm_paths.getD i.toNat "")) := by
    refine mapM_except_ok _ _ _ (fun i hi => ?_)
    obtain ⟨h0, hn⟩ := hvalid i hi
    rw [pyListGet_eq_getD dcm_paths i "" h0 hn]
  refine ⟨?_, ?_, fun hpos => ?_, fun hneg => ?_⟩
  · simp only [segmentationGetitemSlice, datasetGetitemSlice, if_neg hstep]
    exact hmap
  · simp only [inferenceGetitemSlice, datasetGetitemSlice, if_neg hstep]
    exact hmap
  · exact pythonRange_pairwise_ascending (by rw [hstep_eq]; exact hpos)
  · exact pythonRange_pairwise_descending (by rw [hstep_eq]; exact hneg)

/-- C10 counterexample: `d[::-1]` on a two-element dataset returns the
samples in DESCENDING index order `[d[1], d[0]]`, not the ascending
order the claim states (`range(*slice(None, None, -1).indices(2))`
iterates `1, 0`). -/
theorem getitem_slice_negative_step_descends :
    segmentationGetitemSlice ["a", "b"] id none none (some (-1))
        = Except.ok ["b", "a"]
    ∧ segmentationGetitemSlice ["a", "b"] id none none (some (-1))
        ≠ Except.ok ["a", "b"] := by
  exact ⟨by decide, by decide⟩

theorem getitem_slice_returns_ranged_samples_witness :
    ((some 2 : Option ℤ) ≠ some 0)
    ∧ segmentationGetitemSlice ["a", "b", "c"] id (some 0) none (some 2)
        = Except.ok ((pythonRange (sliceIndices 3 (some 0) none (some 2)).1
            (sliceIndices 3 (some 0) none (some 2)).2.1
            (sliceIndices 3 (some 0) none (some 2)).2.2).map
            fun i => (["a", "b", "c"].getD i.toNat ""))
    ∧ ((pythonRange (sliceIndices 3 (some 0) none (some 2)).1
          (sliceIndices 3 (some 0) none (some 2)).2.1
          (sliceIndices 3 (some 0) none (some 2)).2.2).map
          fun i => (["a", "b", "c"].getD i.toNat "")) = ["a", "c"] := by
  refine ⟨by decide, ?_, by decide⟩
  exact (getitem_slice_returns_ranged_samples ["a", "b", "c"] id
    (some 0) none (some 2) (by decide)).1

end ADPKD
